import Mathlib

/-!
# Habit-Tracker: verification of the streak / report / consistency core

Shallow embedding of the habit-tracker server core:

* `updateStreakOp` embeds `updateStreak` from `server/src/lib/db.js`
  (lines 67-145): the backward walk over completion dates computing the
  current streak, and the upsert that persists
  `longest = max(current, existingLongest)`.
* `logCompletionTxn` embeds the transactional `logCompletion` handler from
  `server/src/controllers/habitController.js` (lines 119-240).
* `recalcAllStreaks` embeds `recalculateStreaks` from `db.js`
  (lines 148-166), including the `Promise.all` failure semantics.
* `consistencyScore` embeds the SQL function `calculate_consistency_score`
  from `server/db/stored_procedures.sql`, including the PostgreSQL
  `EXTRACT(DAY FROM AGE(end, start))` day-component semantics.
* `reportSort` embeds the `ORDER BY completion_rate DESC, h.name ASC`
  clause of `generateHabitReport` in `db.js`.

Calendar days are modelled as integers (one unit = one calendar day), as in
the JS code where dates are compared by their `YYYY-MM-DD` day string and
the loop steps `currentDate.setDate(currentDate.getDate() - 1)`.
-/

namespace HabitTracker

/-- One step of the `while (true)` loop of `updateStreak` (db.js 97-107):
walk backward one calendar day at a time from day `d`, counting days while
the day is present in the set of logged dates, stopping at the first absent
day.  The JS loop carries no fuel; the fuel argument here is an embedding
artifact making the function structurally recursive.  `streakFrom` runs it
with fuel `s.card + 1`, which is always enough: each counted day consumes a
distinct member of `s` (proved in `streakFromAux_spec` /
`streakFromAux_eq_streakFrom`). -/
def streakFromAux : Nat → Finset Int → Int → Nat
  | 0, _, _ => 0
  | fuel + 1, s, d => if d ∈ s then streakFromAux fuel s (d - 1) + 1 else 0

/-- The current-streak computation of `updateStreak` (db.js 93-107): the
number of consecutive calendar days ending at `d`, walking backward, that
are present in the logged-date set `s`. -/
def streakFrom (s : Finset Int) (d : Int) : Nat :=
  streakFromAux (s.card + 1) s d

/-- `lastDate` of `updateStreak` (db.js 82-91): the maximum logged date,
`none` when no logs exist. -/
def lastDateOfSet (s : Finset Int) : Option Int :=
  if h : s.Nonempty then some (s.max' h) else none

/-- The current streak computed by `updateStreak`: the backward walk
anchored at the maximum logged date, `0` for an empty set of dates. -/
def currentStreakOfSet (s : Finset Int) : Nat :=
  if h : s.Nonempty then streakFrom s (s.max' h) else 0

/-- A row of the `streaks` table (schema.sql): the persisted current
streak, longest streak, and last logged date for a habit. -/
structure Streak where
  current : Nat
  longest : Nat
  lastDate : Int
deriving DecidableEq

/-- `current_streak` as read by callers: `COALESCE(s.current_streak, 0)`
when no `streaks` row exists. -/
def currentOf (st : Option Streak) : Nat :=
  (st.map Streak.current).getD 0

/-- `longest_streak` as read by callers: `COALESCE(s.longest_streak, 0)`,
and also the `existingLongestStreak` default of db.js 115-117. -/
def longestOf (st : Option Streak) : Nat :=
  (st.map Streak.longest).getD 0

/-- `last_logged_date` as read by callers, `none` when no row exists. -/
def lastOf (st : Option Streak) : Option Int :=
  st.map Streak.lastDate

/-- `updateStreak` from db.js 67-145 as a state transition on the habit's
`streaks` row.  `dates` is the set of distinct completion dates of the
habit (the `logs` Set of db.js 81-91).  With no logs it returns early and
persists nothing (db.js 76-78).  Otherwise it computes the current streak
by the backward walk from the maximum date, reads the previously stored
longest streak (0 when no row exists), and upserts
`(current, max current previous, lastDate)` (db.js 119-136). -/
def updateStreakOp (dates : Finset Int) (st : Option Streak) : Option Streak :=
  if h : dates.Nonempty then
    let lastDate := dates.max' h
    let cur := streakFrom dates lastDate
    some ⟨cur, max cur (longestOf st), lastDate⟩
  else st

/-! ## Characterization of the backward walk -/

/-- Two lengths that both describe a backward run from `d` (all earlier
days present, first day beyond absent) are equal. -/
theorem backRun_unique {s : Finset Int} {d : Int} {n m : Nat}
    (hn1 : ∀ i : Nat, i < n → d - (i : Int) ∈ s) (hn2 : d - (n : Int) ∉ s)
    (hm1 : ∀ i : Nat, i < m → d - (i : Int) ∈ s) (hm2 : d - (m : Int) ∉ s) :
    n = m := by
  rcases lt_trichotomy n m with h | h | h
  · exact absurd (hm1 n h) hn2
  · exact h
  · exact absurd (hn1 m h) hm2

/-- With enough fuel, the fueled walk satisfies the backward-run
characterization: every day it counted is present in the set, and the
first day beyond is absent. -/
theorem streakFromAux_spec :
    ∀ (fuel : Nat) (s : Finset Int) (d : Int),
      (s.filter (fun x => x ≤ d)).card < fuel →
      (∀ i : Nat, i < streakFromAux fuel s d → d - (i : Int) ∈ s) ∧
        d - (streakFromAux fuel s d : Int) ∉ s := by
  intro fuel
  induction fuel with
  | zero => intro s d h; exact absurd h (Nat.not_lt_zero _)
  | succ fuel ih =>
    intro s d hcard
    by_cases hd : d ∈ s
    · have hsub : s.filter (fun x => x ≤ d - 1) ⊆ s.filter (fun x => x ≤ d) := by
        intro x hx
        simp only [Finset.mem_filter] at hx ⊢
        exact ⟨hx.1, by omega⟩
      have hss : s.filter (fun x => x ≤ d - 1) ⊂ s.filter (fun x => x ≤ d) := by
        refine Finset.ssubset_iff_of_subset hsub |>.mpr ⟨d, ?_, ?_⟩
        · simp [hd]
        · simp [hd]
      have hlt : (s.filter (fun x => x ≤ d - 1)).card < fuel := by
        have := Finset.card_lt_card hss
        omega
      obtain ⟨ih1, ih2⟩ := ih s (d - 1) hlt
      have hval : streakFromAux (fuel + 1) s d = streakFromAux fuel s (d - 1) + 1 := by
        simp [streakFromAux, hd]
      rw [hval]
      constructor
      · intro i hi
        match i with
        | 0 => simpa using hd
        | j + 1 =>
          have hj : j < streakFromAux fuel s (d - 1) := by omega
          have := ih1 j hj
          have heq : d - ((j : Int) + 1) = d - 1 - (j : Int) := by ring
          push_cast
          rw [heq]
          exact this
      · have heq : d - ((streakFromAux fuel s (d - 1) : Int) + 1) =
            d - 1 - (streakFromAux fuel s (d - 1) : Int) := by ring
        push_cast
        rw [heq]
        exact ih2
    · simp [streakFromAux, hd]

/-- The canonical fuel `s.card + 1` is always sufficient. -/
theorem streakFrom_spec (s : Finset Int) (d : Int) :
    (∀ i : Nat, i < streakFrom s d → d - (i : Int) ∈ s) ∧
      d - (streakFrom s d : Int) ∉ s := by
  apply streakFromAux_spec
  have := Finset.card_filter_le s (fun x => x ≤ d)
  omega

/-- The walk's result is the unique backward-run length from `d`. -/
theorem streakFrom_eq_of (s : Finset Int) (d : Int) (n : Nat)
    (h1 : ∀ i : Nat, i < n → d - (i : Int) ∈ s) (h2 : d - (n : Int) ∉ s) :
    streakFrom s d = n :=
  backRun_unique (streakFrom_spec s d).1 (streakFrom_spec s d).2 h1 h2

/-- Any fuel beyond the number of members at or below `d` yields the same
result as the canonical fuel: the loop has already exited. -/
theorem streakFromAux_eq_streakFrom (fuel : Nat) (s : Finset Int) (d : Int)
    (h : (s.filter (fun x => x ≤ d)).card < fuel) :
    streakFromAux fuel s d = streakFrom s d :=
  backRun_unique (streakFromAux_spec fuel s d h).1 (streakFromAux_spec fuel s d h).2
    (streakFrom_spec s d).1 (streakFrom_spec s d).2

/-- Each counted day consumes a distinct member of `s` at or below `d`, so
the walk's count is bounded by that member count. -/
theorem streakFromAux_le :
    ∀ (fuel : Nat) (s : Finset Int) (d : Int),
      streakFromAux fuel s d ≤ (s.filter (fun x => x ≤ d)).card := by
  intro fuel
  induction fuel with
  | zero => intro s d; exact Nat.zero_le _
  | succ fuel ih =>
    intro s d
    by_cases hd : d ∈ s
    · have hsub : s.filter (fun x => x ≤ d - 1) ⊆ s.filter (fun x => x ≤ d) := by
        intro x hx
        simp only [Finset.mem_filter] at hx ⊢
        exact ⟨hx.1, by omega⟩
      have hss : s.filter (fun x => x ≤ d - 1) ⊂ s.filter (fun x => x ≤ d) := by
        refine Finset.ssubset_iff_of_subset hsub |>.mpr ⟨d, ?_, ?_⟩
        · simp [hd]
        · simp [hd]
      have hlt := Finset.card_lt_card hss
      have := ih s (d - 1)
      simp only [streakFromAux, hd, if_true]
      omega
    · simp [streakFromAux, hd]

/-- The walk never counts more days than there are distinct logged dates. -/
theorem streakFrom_le_card (s : Finset Int) (d : Int) : streakFrom s d ≤ s.card := by
  have h1 := streakFromAux_le (s.card + 1) s d
  have h2 := Finset.card_filter_le s (fun x => x ≤ d)
  calc streakFrom s d ≤ (s.filter (fun x => x ≤ d)).card := h1
    _ ≤ s.card := h2

/-! ## Consistency score (`calculate_consistency_score`, stored_procedures.sql) -/

/-- A calendar date as passed to the SQL function (`DATE` columns). -/
structure CalDate where
  year : Nat
  month : Nat
  day : Nat
deriving DecidableEq

/-- The Gregorian leap-year rule used by PostgreSQL's date arithmetic. -/
def isLeap (y : Nat) : Bool :=
  y % 4 == 0 && (y % 100 != 0 || y % 400 == 0)

/-- PostgreSQL's `day_tab` lookup: days in month `m` of year `y`. -/
def daysInMonth (y m : Nat) : Nat :=
  if m = 2 then (if isLeap y then 29 else 28)
  else if m = 4 ∨ m = 6 ∨ m = 9 ∨ m = 11 then 30
  else 31

/-- The `while (tm->tm_mday < 0)` borrow loop of PostgreSQL's
`timestamp_age`: while the day field is negative, add the day count of the
earlier argument's month (`day_tab[isleap(tm2->tm_year)][tm2->tm_mon - 1]`,
which does not change across iterations).  Since the initial day field is
at least `1 - 31 = -30` and every month has at least 28 days, the loop runs
at most twice; fuel 2 therefore reproduces the loop exactly. -/
def borrowDaysAux : Nat → Nat → Int → Int
  | 0, _, day => day
  | fuel + 1, dim, day => if day < 0 then borrowDaysAux fuel dim (day + dim) else day

/-- The day component of PostgreSQL `AGE(endDate, startDate)` for two
calendar dates (midnight timestamps) with `endDate >= startDate`: the raw
day-field difference, borrowed up to nonnegative using the start month's
length.  The month/year components of `AGE` are discarded by
`EXTRACT(DAY FROM ...)` and so are not modelled. -/
def pgAgeDay (endD startD : CalDate) : Int :=
  borrowDaysAux 2 (daysInMonth startD.year startD.month)
    ((endD.day : Int) - (startD.day : Int))

/-- `calculate_consistency_score(p_habit_id, p_start_date, p_end_date)`
from stored_procedures.sql, with the habit's `frequency` and the actual
completion count (`COUNT(*)` of the habit's logs in range) as parameters:

* `v_total_days := EXTRACT(DAY FROM AGE(p_end_date, p_start_date)) + 1`
* expected: `daily` → total; `weekly` → `CEIL(total / 7.0)`;
  `monthly` → `CEIL(total / 30.0)`; anything else → total
* score: `(actual / expected) * 100` when `expected > 0`, else `0`
* returns `LEAST(100, score)`. -/
def consistencyScore (frequency : String) (startD endD : CalDate)
    (actual : Nat) : Rat :=
  let totalDays : Int := pgAgeDay endD startD + 1
  let expected : Int :=
    if frequency = "daily" then totalDays
    else if frequency = "weekly" then Int.ceil ((totalDays : Rat) / 7)
    else if frequency = "monthly" then Int.ceil ((totalDays : Rat) / 30)
    else totalDays
  let score : Rat := if 0 < expected then ((actual : Rat) / (expected : Rat)) * 100 else 0
  if (100 : Rat) ≤ score then 100 else score

/-- Modelled from the spec: the rata-die day number of a calendar date,
used only to state the spec's `totalDays = endDate - startDate + 1`
(inclusive day count) for comparison with the code's `pgAgeDay`-based
value. -/
def dayNumber (d : CalDate) : Nat :=
  let y := d.year - 1
  let beforeMonth :=
    (match d.month with
      | 1 => 0 | 2 => 31 | 3 => 59 | 4 => 90 | 5 => 120 | 6 => 151
      | 7 => 181 | 8 => 212 | 9 => 243 | 10 => 273 | 11 => 304 | _ => 334) +
    (if 2 < d.month ∧ isLeap d.year then 1 else 0)
  365 * y + y / 4 - y / 100 + y / 400 + beforeMonth + d.day

/-- Modelled from the spec: `totalDays` as the spec defines it, the
inclusive day count `endDate - startDate + 1`. -/
def specTotalDays (startD endD : CalDate) : Int :=
  (dayNumber endD : Int) - (dayNumber startD : Int) + 1

/-! ## Report ordering (`generateHabitReport`, db.js 169-258) -/

/-- The fields of a habit report row that its `ORDER BY` clause reads:
`completion_rate` and `habit_name` (`h.name`), plus the habit id as the
row's identity. -/
structure ReportRow where
  habitId : Nat
  name : String
  rate : Rat
deriving DecidableEq

/-- The comparator of `ORDER BY completion_rate DESC, h.name ASC`
(db.js 257): row `a` may precede row `b` iff `a` has the larger completion
rate, or rates are equal and `a`'s name is `≤` `b`'s. -/
def reportOrder (a b : ReportRow) : Prop :=
  b.rate < a.rate ∨ (a.rate = b.rate ∧ a.name ≤ b.name)

instance : DecidableRel reportOrder := fun a b =>
  inferInstanceAs (Decidable (b.rate < a.rate ∨ (a.rate = b.rate ∧ a.name ≤ b.name)))

instance : IsTotal ReportRow reportOrder := by
  constructor
  intro a b
  rcases lt_trichotomy a.rate b.rate with h | h | h
  · exact Or.inr (Or.inl h)
  · rcases le_total a.name b.name with hn | hn
    · exact Or.inl (Or.inr ⟨h, hn⟩)
    · exact Or.inr (Or.inr ⟨h.symm, hn⟩)
  · exact Or.inl (Or.inl h)

instance : IsTrans ReportRow reportOrder := by
  constructor
  intro a b c hab hbc
  rcases hab with h1 | ⟨h1, hn1⟩
  · rcases hbc with h2 | ⟨h2, _⟩
    · exact Or.inl (h2.trans h1)
    · exact Or.inl (h2 ▸ h1)
  · rcases hbc with h2 | ⟨h2, hn2⟩
    · exact Or.inl (h1 ▸ h2)
    · exact Or.inr ⟨h1.trans h2, hn1.trans hn2⟩

/-- The ordering step of `generateHabitReport`: the habits result set
sorted by the `ORDER BY completion_rate DESC, h.name ASC` comparator. -/
def reportSort (rows : List ReportRow) : List ReportRow :=
  List.insertionSort reportOrder rows

/-! ## Log-completion transaction (`logCompletion`, habitController.js 119-240) -/

/-- The per-habit slice of the database that `logCompletion` touches: the
habit's `habit_logs` rows (date, completed_count) and its `streaks` row. -/
structure HabitDB where
  logs : List (Int × Nat)
  streak : Option Streak
deriving DecidableEq

/-- The distinct completion dates of a log list (the `logs` Set built at
habitController.js 162-173 / db.js 81-91). -/
def datesOf (logs : List (Int × Nat)) : Finset Int :=
  (logs.map Prod.fst).toFinset

/-- Outcome of the `logCompletion` request: `created db 201` on commit,
`failed db code` after `ROLLBACK` (the returned state is what the reader
observes afterwards). -/
inductive LogResult where
  | created (db : HabitDB) (status : Nat)
  | failed (db : HabitDB) (status : Nat)
deriving DecidableEq

/-- `logCompletion` from habitController.js 119-240.  The whole body runs
between `BEGIN` (line 124) and `COMMIT` (line 222); any throw is caught
and answered with `ROLLBACK` (line 233), discarding all staged writes.
`owned` is whether the habit-ownership check (lines 131-140) finds the
habit; `failAt = some k` injects a database failure at the k-th fallible
statement (0 = habit SELECT, 1 = log INSERT, 2 = logs SELECT,
3 = streak SELECT/upsert, 4 = COMMIT itself).  After the INSERT the log
list is nonempty, so the streak branch (lines 161-219), which repeats the
`updateStreak` computation inline, always runs. -/
def logCompletionTxn (owned : Bool) (failAt : Option Nat) (date : Int)
    (count : Nat) (db : HabitDB) : LogResult :=
  if failAt = some 0 then .failed db 400
  else if owned = false then .failed db 404
  else if failAt = some 1 then .failed db 400
  else
    let db1 : HabitDB := { db with logs := db.logs ++ [(date, count)] }
    if failAt = some 2 then .failed db 400
    else if failAt = some 3 then .failed db 400
    else
      let db2 : HabitDB := { db1 with streak := updateStreakOp (datesOf db1.logs) db1.streak }
      if failAt = some 4 then .failed db 400
      else .created db2 201

/-! ## Batch recalculation (`recalculateStreaks`, db.js 148-166) -/

/-- One habit of a user as seen by `recalculateStreaks`: its id, its
distinct completion dates, and its `streaks` row. -/
structure HabitEntry where
  hid : Nat
  dates : Finset Int
  streak : Option Streak
deriving DecidableEq

/-- `recalculateStreaks(userId)` from db.js 148-166.  The `.map` starts
`updateStreak` for every habit before any promise is awaited, so every
habit whose own database calls succeed gets its streak row updated even
when another habit's call fails (`fails h.hid = true` injects such a
failure).  `Promise.all` then rejects with the first failure, which the
`catch` block rethrows: the batch call itself reports that error to its
caller instead of returning a collection of per-habit failures. -/
def recalcAllStreaks (fails : Nat → Bool) (habits : List HabitEntry) :
    List HabitEntry × Except Nat Unit :=
  (habits.map fun h =>
      if fails h.hid then h else { h with streak := updateStreakOp h.dates h.streak },
   match habits.find? (fun h => fails h.hid) with
   | some h => Except.error h.hid
   | none => Except.ok ())

/-! ## Spec-side longest run -/

/-- Modelled from the spec: "the maximum, over all maximal runs of
consecutive dates in the set, of run length".  Every run's length is the
backward walk from its last day, so this is the supremum of `streakFrom`
over all days of the set.  Used only for comparison with the code's
persisted longest streak. -/
def specLongestRun (s : Finset Int) : Nat :=
  s.sup fun d => streakFrom s d

/-! ## Shared lemmas about `updateStreakOp` -/

/-- When the habit has at least one completion date, `updateStreakOp`
persists the backward-walk current streak, the max of it with the stored
longest, and the maximum date. -/
theorem updateStreakOp_nonempty (dates : Finset Int) (h : dates.Nonempty)
    (st : Option Streak) :
    updateStreakOp dates st =
      some ⟨streakFrom dates (dates.max' h),
        max (streakFrom dates (dates.max' h)) (longestOf st), dates.max' h⟩ := by
  unfold updateStreakOp
  rw [dif_pos h]

/-- With no completion dates, `updateStreakOp` returns early and leaves
the stored streak row untouched. -/
theorem updateStreakOp_empty (dates : Finset Int) (h : ¬dates.Nonempty)
    (st : Option Streak) : updateStreakOp dates st = st := by
  unfold updateStreakOp
  rw [dif_neg h]

/-- A single recomputation never lowers the persisted longest streak. -/
theorem longestOf_updateStreakOp_ge (dates : Finset Int) (st : Option Streak) :
    longestOf st ≤ longestOf (updateStreakOp dates st) := by
  by_cases h : dates.Nonempty
  · rw [updateStreakOp_nonempty dates h st]
    exact le_max_right _ _
  · rw [updateStreakOp_empty dates h st]

/-! ## Claims -/

/-- C1: for every non-empty set of completion dates, the recomputed and
persisted current streak equals the (unique) number of consecutive
calendar days, walking backward one day at a time from the maximum logged
date, each of which is present in the set, stopping at the first absent
day.  The walk is anchored at the last logged date (`s.max' h`), not at
any notion of "today": a habit whose last run ended in the past still
reports that run's length. -/
theorem c1_current_streak_backward_walk (s : Finset Int) (h : s.Nonempty)
    (st : Option Streak) (n : Nat) :
    currentOf (updateStreakOp s st) = n ↔
      ((∀ i : Nat, i < n → s.max' h - (i : Int) ∈ s) ∧ s.max' h - (n : Int) ∉ s) := by
  have hval : currentOf (updateStreakOp s st) = streakFrom s (s.max' h) := by
    rw [updateStreakOp_nonempty s h st]
    rfl
  rw [hval]
  constructor
  · rintro rfl
    exact streakFrom_spec s (s.max' h)
  · rintro ⟨h1, h2⟩
    exact streakFrom_eq_of s (s.max' h) n h1 h2

/-- Witness for C1: the spec's streak scenario with completion days
0, 1, 2 (2024-01-01 .. 2024-01-03), a gap, then day 9 (2024-01-10): the
current streak is 1, the run ending at the stale last logged date. -/
theorem c1_current_streak_backward_walk_witness :
    currentOf (updateStreakOp ({0, 1, 2, 9} : Finset Int) none) = 1 :=
  (c1_current_streak_backward_walk {0, 1, 2, 9} (by decide) none 1).mpr (by decide)

/-- C2, counterexample: for the date set {0, 1, 2, 9} with no previously
stored streak row, the run of length 3 lies in the past, but the code
persists `longest = max(currentStreak, storedLongest) = max(1, 0) = 1`,
not the spec's `max(longestRunAnywhere, storedLongest) = 3`: the newly
computed component is only the tail run ending at the last logged date,
never the full history. -/
theorem c2_longest_not_full_history :
    longestOf (updateStreakOp ({0, 1, 2, 9} : Finset Int) none) = 1 ∧
    specLongestRun ({0, 1, 2, 9} : Finset Int) = 3 ∧
    longestOf (updateStreakOp ({0, 1, 2, 9} : Finset Int) none) ≠
      max (specLongestRun ({0, 1, 2, 9} : Finset Int)) (longestOf none) := by
  with_unfolding_all decide

/-- C2, amended: the persisted longest streak equals
`max(newlyComputedCurrentStreak, previouslyStoredLongest)`, where the
newly computed component is the current (tail) run ending at the last
logged date — characterized by the backward walk — not the maximum run
over the full history. -/
theorem c2_longest_is_max_of_tail_run_and_stored (s : Finset Int) (h : s.Nonempty)
    (st : Option Streak) (n : Nat)
    (h1 : ∀ i : Nat, i < n → s.max' h - (i : Int) ∈ s)
    (h2 : s.max' h - (n : Int) ∉ s) :
    longestOf (updateStreakOp s st) = max n (longestOf st) := by
  have hn : streakFrom s (s.max' h) = n := streakFrom_eq_of s (s.max' h) n h1 h2
  rw [updateStreakOp_nonempty s h st]
  show max (streakFrom s (s.max' h)) (longestOf st) = max n (longestOf st)
  rw [hn]

/-- Witness for the amended C2 at the date set {0, 1, 2, 9} with no
stored row: the persisted longest is max(1, 0). -/
theorem c2_longest_is_max_of_tail_run_and_stored_witness :
    longestOf (updateStreakOp ({0, 1, 2, 9} : Finset Int) none) = max 1 (longestOf none) :=
  c2_longest_is_max_of_tail_run_and_stored {0, 1, 2, 9} (by decide) none 1
    (by decide) (by decide)

/-- C3: `calculate_consistency_score` computes
`v_total_days := EXTRACT(DAY FROM AGE(end, start)) + 1` — the *day
component* of the symbolic year/month/day interval, not the spec's
inclusive day count `end - start + 1`.  For start 2024-01-01 and end
2024-03-01 the interval is exactly 2 months, so the code sees
`totalDays = 0 + 1 = 1`, expects 1 daily completion, and returns 100 for
a single completion, where the claim's formula gives
`totalDays = 61`, `expected = 61`, score `(1/61)*100 ≈ 1.6`.  On ranges
shorter than a month (the claim's own weekly example: 14 days, 1
completion) code and claim agree on 50. -/
theorem c3_consistency_uses_age_day_component :
    consistencyScore "daily" ⟨2024, 1, 1⟩ ⟨2024, 3, 1⟩ 1 = 100 ∧
    specTotalDays ⟨2024, 1, 1⟩ ⟨2024, 3, 1⟩ = 61 ∧
    consistencyScore "daily" ⟨2024, 1, 1⟩ ⟨2024, 3, 1⟩ 1 ≠ (1 : Rat) / 61 * 100 ∧
    consistencyScore "weekly" ⟨2024, 1, 1⟩ ⟨2024, 1, 14⟩ 1 = 50 := by
  with_unfolding_all decide

/-- C4: the persisted longest streak never decreases: not after a single
recomputation with an arbitrary (grown, shrunk or unchanged) set of
completion dates, and not across any sequence of successive
recomputations. -/
theorem c4_longest_monotone (dates : Finset Int) (st : Option Streak)
    (sets : List (Finset Int)) :
    longestOf st ≤ longestOf (updateStreakOp dates st) ∧
    longestOf st ≤ longestOf (sets.foldl (fun acc ds => updateStreakOp ds acc) st) := by
  constructor
  · exact longestOf_updateStreakOp_ge dates st
  · induction sets generalizing st with
    | nil => exact le_refl _
    | cons ds rest ih =>
      exact le_trans (longestOf_updateStreakOp_ge ds st) (ih _)

/-- C5: streak recomputation is idempotent: recomputing with the same set
of completion dates twice produces the identical persisted streak row
(same current streak, longest streak, and last logged date) as
recomputing once. -/
theorem c5_recalculate_idempotent (dates : Finset Int) (st : Option Streak) :
    updateStreakOp dates (updateStreakOp dates st) = updateStreakOp dates st := by
  by_cases h : dates.Nonempty
  · rw [updateStreakOp_nonempty dates h st, updateStreakOp_nonempty dates h
      (some ⟨streakFrom dates (dates.max' h),
        max (streakFrom dates (dates.max' h)) (longestOf st), dates.max' h⟩)]
    simp only [Option.some.injEq, Streak.mk.injEq]
    refine ⟨trivial, ?_, trivial⟩
    show max (streakFrom dates (dates.max' h))
        (max (streakFrom dates (dates.max' h)) (longestOf st)) =
      max (streakFrom dates (dates.max' h)) (longestOf st)
    rw [← Nat.max_assoc, Nat.max_self]
  · rw [updateStreakOp_empty dates h st, updateStreakOp_empty dates h st]

/-- C6, counterexample: with two habits each having one completion on day
0 and no streak rows, and habit 1's database call failing, every
started recalculation still runs (habit 2's streak row is written), but
`Promise.all` rejects with the first failure and `recalculateStreaks`
rethrows it: the batch call reports the error as its own failure —
fatal to its caller (report generation awaits it) — instead of
completing with a collection of per-habit failures as the claim
requires. -/
theorem c6_batch_failure_is_fatal :
    (recalcAllStreaks (fun i => i == 1) [⟨1, {0}, none⟩, ⟨2, {0}, none⟩]).snd =
        Except.error 1 ∧
    (recalcAllStreaks (fun i => i == 1) [⟨1, {0}, none⟩, ⟨2, {0}, none⟩]).fst =
        [⟨1, {0}, none⟩, ⟨2, {0}, some ⟨1, 1, 0⟩⟩] :=
  ⟨rfl, by with_unfolding_all decide⟩

/-- C6, amended: `recalculateStreaks` starts a recalculation for every
owned habit before awaiting any of them, so one habit's failure does not
prevent the other habits' streak updates from executing; but failures are
not collected: the batch call succeeds iff no habit failed, and otherwise
propagates the first failure as its own error. -/
theorem c6_batch_updates_survivors_but_rethrows (fails : Nat → Bool)
    (habits : List HabitEntry) :
    (∀ h ∈ habits, fails h.hid = false →
        ({ h with streak := updateStreakOp h.dates h.streak } : HabitEntry) ∈
          (recalcAllStreaks fails habits).fst) ∧
    ((recalcAllStreaks fails habits).snd = Except.ok () ↔
        ∀ h ∈ habits, fails h.hid = false) := by
  constructor
  · intro h hmem hf
    have hmap := List.mem_map_of_mem
      (fun h => if fails h.hid then h
        else { h with streak := updateStreakOp h.dates h.streak }) hmem
    simpa [recalcAllStreaks, hf] using hmap
  · show (match habits.find? (fun h => fails h.hid) with
      | some h => Except.error h.hid
      | none => Except.ok ()) = Except.ok () ↔ _
    cases hfind : habits.find? (fun h => fails h.hid) with
    | none =>
      simp only [iff_true_intro rfl, true_iff]
      intro h hmem
      have := List.find?_eq_none.mp hfind h hmem
      simpa using this
    | some a =>
      constructor
      · intro hcontra
        exact absurd hcontra (by simp)
      · intro hall
        have hmem := List.mem_of_find?_eq_some hfind
        have hpa := List.find?_some hfind
        rw [hall a hmem] at hpa
        cases hpa

/-- Witness for the amended C6: in the two-habit batch with habit 1
failing, habit 2's updated entry is present in the final state, and the
batch result is not success. -/
theorem c6_batch_updates_survivors_but_rethrows_witness :
    (⟨2, {0}, updateStreakOp {0} none⟩ : HabitEntry) ∈
        (recalcAllStreaks (fun i => i == 1) [⟨1, {0}, none⟩, ⟨2, {0}, none⟩]).fst ∧
    (recalcAllStreaks (fun i => i == 1) [⟨1, {0}, none⟩, ⟨2, {0}, none⟩]).snd ≠
        Except.ok () := by
  constructor
  · exact (c6_batch_updates_survivors_but_rethrows (fun i => i == 1)
      [⟨1, {0}, none⟩, ⟨2, {0}, none⟩]).1 ⟨2, {0}, none⟩ (by decide) rfl
  · intro hok
    have := (c6_batch_updates_survivors_but_rethrows (fun i => i == 1)
      [⟨1, {0}, none⟩, ⟨2, {0}, none⟩]).2.mp hok ⟨1, {0}, none⟩ (by decide)
    cases this

/-- C7: the log-completion operation is atomic.  Every run of the
transactional handler either commits — and then the final state is
exactly the prior state with the completion record appended and the
streak row recomputed from the post-insert logs, both writes together —
or fails, and then the rollback restores the prior state exactly: no
completion record and no streak mutation survive, whichever statement
inside the `BEGIN`/`COMMIT` boundary failed. -/
theorem c7_log_completion_atomic (owned : Bool) (failAt : Option Nat) (date : Int)
    (count : Nat) (db : HabitDB) :
    logCompletionTxn owned failAt date count db =
        LogResult.created
          ⟨db.logs ++ [(date, count)],
            updateStreakOp (datesOf (db.logs ++ [(date, count)])) db.streak⟩ 201 ∨
      ∃ code, logCompletionTxn owned failAt date count db = LogResult.failed db code := by
  unfold logCompletionTxn
  split_ifs <;> first
    | (right; exact ⟨_, rfl⟩)
    | (left; rfl)

/-- C8: with zero completion logs, single-habit recalculation is a no-op
that persists nothing — any existing streak row is left exactly as it
was — and the streak computation on the empty date set yields current 0,
longest 0, last logged date null (the values a reader observes through
the `COALESCE(..., 0)` defaults when no row exists). -/
theorem c8_empty_logs_noop :
    (∀ st : Option Streak, updateStreakOp (∅ : Finset Int) st = st) ∧
    currentOf (updateStreakOp (∅ : Finset Int) none) = 0 ∧
    longestOf (updateStreakOp (∅ : Finset Int) none) = 0 ∧
    lastOf (updateStreakOp (∅ : Finset Int) none) = none := by
  have hne : ¬(∅ : Finset Int).Nonempty := by simp
  exact ⟨fun st => updateStreakOp_empty ∅ hne st, rfl, rfl, rfl⟩

/-- C9: the habits array of the report is sorted by the
`ORDER BY completion_rate DESC, h.name ASC` comparator: pairwise along
the output, the earlier row has the strictly larger completion rate or
an equal rate and a name that is `≤` the later row's; the output is a
permutation of the input rows; and at the claim's example — two rows with
equal rate 9/10 named "B" and "A" — "A" sorts before "B". -/
theorem c9_report_sorted_by_rate_desc_name_asc (rows : List ReportRow) :
    List.Sorted (fun a b => b.rate < a.rate ∨ (a.rate = b.rate ∧ a.name ≤ b.name))
        (reportSort rows) ∧
    (reportSort rows).Perm rows ∧
    reportSort [⟨1, "B", 9/10⟩, ⟨2, "A", 9/10⟩] =
        [⟨2, "A", 9/10⟩, ⟨1, "B", 9/10⟩] := by
  refine ⟨?_, ?_, ?_⟩
  · exact List.sorted_insertionSort reportOrder rows
  · exact List.perm_insertionSort reportOrder rows
  · with_unfolding_all decide

/-- C10: the backward-walking current-streak loop terminates for every
finite set of logged dates: any fuel beyond the number of distinct
logged dates yields the value the canonical run computes (the loop has
already exited), and the computed current streak never exceeds the
number of distinct completion dates. -/
theorem c10_backward_walk_terminates (s : Finset Int) (d : Int) (fuel : Nat)
    (hf : s.card < fuel) :
    streakFromAux fuel s d = streakFrom s d ∧ currentStreakOfSet s ≤ s.card := by
  constructor
  · apply streakFromAux_eq_streakFrom
    have := Finset.card_filter_le s (fun x => x ≤ d)
    omega
  · unfold currentStreakOfSet
    split
    · exact streakFrom_le_card _ _
    · exact Nat.zero_le _

/-- Witness for C10 at the date set {0, 1, 2, 9} with fuel 10 and start
day 9: the fueled walk agrees with the canonical one and the current
streak is bounded by the four distinct dates. -/
theorem c10_backward_walk_terminates_witness :
    streakFromAux 10 ({0, 1, 2, 9} : Finset Int) 9 =
        streakFrom ({0, 1, 2, 9} : Finset Int) 9 ∧
    currentStreakOfSet ({0, 1, 2, 9} : Finset Int) ≤ ({0, 1, 2, 9} : Finset Int).card :=
  c10_backward_walk_terminates {0, 1, 2, 9} 9 10 (by decide)

end HabitTracker
